import Mathlib

/-!
Shallow embedding of the resilient token-resolution and multi-source
acquisition pipeline (market-data, search, scraper and batch utilities),
with theorems settling the behavioural claims about it.

External collaborators (the HTTP clients, the LLM classifier, the
readability extractor, the filesystem) are modelled as explicit inputs:
a pure function or an `Option`-valued outcome passed to the embedded
operation, so that each embedded function is the source function with
its I/O boundary made into a parameter.
-/

set_option maxRecDepth 4000

namespace Pipeline

/-- AssetRecord as produced by mapCoinData in market-data.ts: id, symbol, name. -/
structure Asset where
  id : String
  symbol : String
  name : String
deriving DecidableEq, Repr

/-- MarketData record shape returned by the upstream listing (market-data.ts).
Only the fields the embedded logic reads are carried; the numeric fields use
Int since the logic only compares them against integer thresholds. -/
structure MarketData where
  id : String
  symbol : String
  name : String
  market_cap : Int
  total_volume : Int
deriving DecidableEq, Repr

/-- The page loop of fetchFilteredMarketData (market-data.ts lines 38-70),
with the upstream modelled as the list of successful page responses in the
order received (the 429 back-off branch retries the same page and so does not
change that sequence). Each page is filtered by the two thresholds and
appended; the loop stops at an empty page or a short page (after keeping its
filtered records). -/
def fetchFilteredMarketData (minMarketCap minVolume : Int) (perPage : Nat) :
    List (List MarketData) → List MarketData
  | [] => []
  | page :: rest =>
    if page.isEmpty then []
    else
      let filtered := page.filter fun c =>
        minMarketCap ≤ c.market_cap && minVolume ≤ c.total_volume
      if page.length < perPage then filtered
      else filtered ++ fetchFilteredMarketData minMarketCap minVolume perPage rest

/-- Projection used by mapCoinData in setupCompleteKnowledgeBase. -/
def mapCoin (c : MarketData) : Asset :=
  { id := c.id, symbol := c.symbol, name := c.name }

/-- Knowledge base shape persisted by setupCompleteKnowledgeBase. -/
structure KnowledgeBase where
  filtered : List Asset
  unfiltered : List Asset
deriving DecidableEq, Repr

/-- setupCompleteKnowledgeBase (market-data.ts lines 108-144) after the
upstream fetch: the unfiltered listing is filtered by the fixed quality
thresholds and both lists are projected to Asset. -/
def setupCompleteKnowledgeBase (allMarketData : List MarketData) : KnowledgeBase :=
  let filteredMarketData := allMarketData.filter fun coin =>
    1000000 ≤ coin.market_cap && 10000 ≤ coin.total_volume
  { filtered := filteredMarketData.map mapCoin
    unfiltered := allMarketData.map mapCoin }

/-- Cache TTL from getCachedKnowledgeBase: 30 minutes in milliseconds. -/
def CACHE_TTL : Int := 30 * 60 * 1000

/-- getCachedKnowledgeBase (market-data.ts lines 75-106) with the filesystem
and clock explicit: cacheFile is the stat/read outcome (mtime in ms and raw
bytes, or none when stat throws), parse is JSON.parse (none = throw), fresh
is the value setupCompleteKnowledgeBase would produce. The Bool records
whether the upstream fetch path ran. The write-back of the fresh value does
not affect the returned pair and is not modelled. -/
def getCachedKnowledgeBase (now : Int) (cacheFile : Option (Int × String))
    (parse : String → Option KnowledgeBase) (fresh : KnowledgeBase) :
    KnowledgeBase × Bool :=
  match cacheFile with
  | some (mtime, raw) =>
    if now - mtime > CACHE_TTL then (fresh, true)
    else
      match parse raw with
      | some cached => (cached, false)
      | none => (fresh, true)
  | none => (fresh, true)

/-- JavaScript String toLowerCase modelled as per-character lower-casing. -/
def jsToLower (s : String) : String := String.mk (s.data.map Char.toLower)

/-- JavaScript String toUpperCase modelled as per-character upper-casing. -/
def jsToUpper (s : String) : String := String.mk (s.data.map Char.toUpper)

/-- The common-word skip list hard-coded in findTokenMatches. -/
def commonWords : List String :=
  ["protocol", "token", "coin", "network", "chain", "finance"]

/-- JavaScript String.prototype.includes over Lean strings: pat occurs as a
contiguous substring of s. -/
def strIncludes (s pat : String) : Bool :=
  (List.range (s.toList.length + 1)).any fun i =>
    pat.toList.isPrefixOf (s.toList.drop i)

/-- The inner scan of findTokenMatches (market-data.ts lines 165-192): find
the first asset, in list order, taken by one of the three guarded branches
(exact symbol, exact name, partial name of a token longer than 2), each
branch also requiring the asset id not to be in foundIds. -/
def findFirstMatch (lowerToken : String) (foundIds : List String) :
    List Asset → Option Asset
  | [] => none
  | asset :: rest =>
    let assetName := jsToLower asset.name
    let assetSymbol := jsToLower asset.symbol
    if assetSymbol == lowerToken && !foundIds.contains asset.id then some asset
    else if assetName == lowerToken && !foundIds.contains asset.id then some asset
    else if strIncludes assetName lowerToken && lowerToken.length > 2
        && !foundIds.contains asset.id then some asset
    else findFirstMatch lowerToken foundIds rest

/-- findTokenMatches (market-data.ts lines 147-196): per token, skip common
words, otherwise bind the token to the first qualifying asset and record its
id in foundIds so later tokens cannot rebind it. The foundIds accumulator is
the Set in the source; the entry call passes []. -/
def findTokenMatches : List String → List Asset → List String → List Asset
  | [], _, _ => []
  | token :: rest, assetList, foundIds =>
    let lowerToken := jsToLower token
    if commonWords.contains lowerToken then
      findTokenMatches rest assetList foundIds
    else
      match findFirstMatch lowerToken foundIds assetList with
      | some asset => asset :: findTokenMatches rest assetList (asset.id :: foundIds)
      | none => findTokenMatches rest assetList foundIds

/-- Outcome of the LLM classifier call inside calculateMatchPercentageWithLLM
(percentage variant, market-data.ts lines 617-659): either the call returned
and the two regexes were applied (confidenceMatch is the parsed integer of
the CONFIDENCE capture when it matched, decisionMatch the DECISION capture),
or the call threw. -/
inductive LLMOutcome where
  | parsed (confidenceMatch : Option Nat) (decisionMatch : Option String)
  | failed
deriving DecidableEq, Repr

/-- Return shape of calculateMatchPercentageWithLLM. -/
structure MatchValidation where
  isValid : Bool
  confidence : Option Nat
  suggestions : Option (List Asset)
deriving DecidableEq, Repr

/-- calculateMatchPercentageWithLLM, percentage variant (market-data.ts lines
565-660), with the outcome of the LLM call an explicit input. On a parsed
response: confidence defaults to 0 when the regex missed, decision defaults
to INVALID, and the candidate list is accepted only when the upper-cased
decision is VALID and confidence is at least 60; rejection returns the first
three matches as suggestions. On a thrown call: the conservative fallback
accepts exactly when some token equals the symbol or the name of some match after
lower-casing, and never returns suggestions. -/
def calculateMatchPercentageWithLLM (userTokens : List String)
    (foundMatches : List Asset) (llm : LLMOutcome) : MatchValidation :=
  if foundMatches.isEmpty then { isValid := false, confidence := none, suggestions := none }
  else
    match llm with
    | .parsed confidenceMatch decisionMatch =>
      let confidencePercentage := confidenceMatch.getD 0
      let decision := jsToUpper (decisionMatch.getD "INVALID")
      let isValid := decision == "VALID" && confidencePercentage ≥ 60
      if !isValid then
        { isValid := false
          confidence := some confidencePercentage
          suggestions := some (foundMatches.take 3) }
      else
        { isValid := true, confidence := some confidencePercentage, suggestions := none }
    | .failed =>
      let hasExactMatch := foundMatches.any fun m =>
        userTokens.any fun token =>
          jsToLower token == jsToLower m.symbol || jsToLower token == jsToLower m.name
      { isValid := hasExactMatch
        confidence := some (if hasExactMatch then 100 else 0)
        suggestions := none }

/-- Return shape of retrieveCoinIDs: the TypeScript union of a match array
and an error object with optional suggestions. -/
inductive ResolutionResult where
  | accepted (found : List Asset)
  | rejected (error : String) (suggestions : Option (List Asset))
deriving DecidableEq, Repr

/-- Fixed rejection message used when no match is found (and reused on a
zero-confidence rejection). -/
def noMatchMessage : String :=
  "Sorry, we only serve mid to popular coins for now. Please ask about well-known cryptocurrencies."

/-- Rejection message assembled when confidence is positive but below 60 and
suggestions exist (market-data.ts lines 688-694). -/
def lowConfidenceMessage (confidence : Nat) (suggestions : List Asset) : String :=
  "Match confidence is " ++ toString confidence ++
    "% (below 60% threshold). Found these tokens: " ++
    String.intercalate ", " (suggestions.map Asset.name) ++
    ". Please clarify by using complete token names from this list to improve accuracy."

/-- retrieveCoinIDs, list-knowledge-base variant (market-data.ts lines
662-705), with the classifier outcome an explicit input: empty token list
returns the empty array immediately; no lexical match returns the fixed
rejection; otherwise the classifier validation decides between acceptance
and one of the two rejection shapes. -/
def retrieveCoinIDs (potentialTokens : List String)
    (knowledgeBase : List Asset) (llm : LLMOutcome) : ResolutionResult :=
  if potentialTokens.isEmpty then .accepted []
  else
    let matchResults := findTokenMatches potentialTokens knowledgeBase []
    if matchResults.isEmpty then .rejected noMatchMessage none
    else
      let llmResult := calculateMatchPercentageWithLLM potentialTokens matchResults llm
      if !llmResult.isValid then
        let confidence := llmResult.confidence.getD 0
        match llmResult.suggestions with
        | some suggestions =>
          if confidence > 0 && confidence < 60 && !suggestions.isEmpty then
            .rejected (lowConfidenceMessage confidence suggestions) (some suggestions)
          else
            .rejected noMatchMessage (some suggestions)
        | none => .rejected noMatchMessage none
      else
        .accepted matchResults

/-- ScrapedContent as built by WebScraper.extractContent (scraper.ts). -/
structure ScrapedContent where
  url : String
  title : String
  content : String
  cleanedContent : String
  publishedDate : Option String
  wordCount : Nat
deriving DecidableEq, Repr

/-- The external collaborators of WebScraper with their I/O made explicit:
axiosGet url is the fetched markup (none = the request threw, timed out or
returned a non-success status), playwrightRender url the rendered markup
(none = the browser step threw), titleOf the cheerio title extraction,
readableText the Readability text extraction with its body-text fallback
(already trimmed), and dateOf html url the DateExtractor result. -/
structure ScrapeEnv where
  axiosGet : String → Option String
  playwrightRender : String → Option String
  titleOf : String → String
  readableText : String → String
  dateOf : String → String → Option String

/-- WebScraper.extractContent (scraper.ts lines 89-128): extract title and
readable text from the markup; text shorter than 100 characters throws
Insufficient content, which the catch inside the method turns into null. -/
def extractContent (env : ScrapeEnv) (url html : String) : Option ScrapedContent :=
  let title := env.titleOf html
  let content := env.readableText html
  if content.length < 100 then none
  else
    some { url := url
           title := title
           content := content
           cleanedContent := content.take 8000
           publishedDate := env.dateOf html url
           wordCount := (content.splitOn " ").length }

/-- WebScraper.tryAxiosMethod (scraper.ts lines 55-67): the outer Option is
whether the method returned at all (none = it rethrew the axios failure), the
inner Option is the extractContent result it returned. -/
def tryAxiosMethod (env : ScrapeEnv) (url : String) : Option (Option ScrapedContent) :=
  match env.axiosGet url with
  | some html => some (extractContent env url html)
  | none => none

/-- WebScraper.tryPlaywrightMethod (scraper.ts lines 69-87), same convention
as tryAxiosMethod. -/
def tryPlaywrightMethod (env : ScrapeEnv) (url : String) : Option (Option ScrapedContent) :=
  match env.playwrightRender url with
  | some html => some (extractContent env url html)
  | none => none

/-- WebScraper.scrapeUrl (scraper.ts lines 42-53). The Bool records whether
the playwright method was invoked. A throw from tryAxiosMethod lands in
the catch in scrapeUrl and returns null without reaching the playwright call; a
null (truthy-false) return from tryAxiosMethod falls through to the
playwright call; a throw from tryPlaywrightMethod also lands in the catch. -/
def scrapeUrl (env : ScrapeEnv) (url : String) : Option ScrapedContent × Bool :=
  match tryAxiosMethod env url with
  | none => (none, false)
  | some (some result) => (some result, false)
  | some none =>
    match tryPlaywrightMethod env url with
    | some playwrightResult => (playwrightResult, true)
    | none => (none, true)

/-- A search hit as formatted by SearchService (scraper.ts search variant):
only the url field takes part in the logic under study; title stands in for
the remaining payload fields. -/
structure SearchHit where
  url : String
  title : String
deriving DecidableEq, Repr

/-- SearchResult shape returned by the SearchService methods. -/
structure SearchResult where
  urls : List String
  results : List SearchHit
  source : String
deriving DecidableEq, Repr

/-- Outcome of one Promise.allSettled arm. -/
inductive Settled (α : Type) where
  | fulfilled (value : α)
  | rejectedArm
deriving DecidableEq, Repr

/-- JavaScript Set insertion semantics: keep the first occurrence of each
element of the list, given the elements already seen. -/
def dedupSeen (seen : List String) : List String → List String
  | [] => []
  | x :: xs =>
    if seen.contains x then dedupSeen seen xs
    else x :: dedupSeen (x :: seen) xs

/-- The seen-set after inserting a whole list, matching dedupSeen. -/
def dedupAccum (seen : List String) : List String → List String
  | [] => seen
  | x :: xs =>
    if seen.contains x then dedupAccum seen xs
    else dedupAccum (x :: seen) xs

/-- Spread of new Set(l): first-occurrence deduplication. -/
def dedupFirst (l : List String) : List String := dedupSeen [] l

/-- SearchService.searchDualEngine (scraper.ts lines 248-270) after both
allSettled arms resolve: a rejected arm degrades to an empty result, the url
lists are concatenated (Exa first) and deduplicated with Set semantics, and
the hit arrays are concatenated without deduplication. -/
def searchDualEngine (exaOutcome tavilyOutcome : Settled SearchResult) : SearchResult :=
  let exa := match exaOutcome with
    | .fulfilled v => v
    | .rejectedArm => { urls := [], results := [], source := "exa" }
  let tavily := match tavilyOutcome with
    | .fulfilled v => v
    | .rejectedArm => { urls := [], results := [], source := "tavily" }
  { urls := dedupFirst (exa.urls ++ tavily.urls)
    results := exa.results ++ tavily.results
    source := "combined" }

/-- One invocation of the operation passed to batchProcessWithRateLimit: it
may succeed with a value, throw an error classified as rate limiting (a 429
status or a rate-limit message), or throw any other error. -/
inductive AttemptOutcome (R : Type) where
  | success (value : R)
  | rateLimited
  | failure
deriving DecidableEq, Repr

/-- The per-item while loop of batchProcessWithRateLimit (utils/index.ts
lines 57-74): behavior gives the outcome of the invocation at each attempt
number, remaining is maxRetries minus the current attempt (the loop retries
a rate-limited attempt exactly when attempt < maxRetries). -/
def attemptLoop {R : Type} (behavior : Nat → AttemptOutcome R) :
    Nat → Nat → Option R
  | attempt, remaining =>
    match behavior attempt with
    | .success v => some v
    | .failure => none
    | .rateLimited =>
      match remaining with
      | 0 => none
      | n + 1 => attemptLoop behavior (attempt + 1) n

/-- Result of one item of the batch map: the retry loop started at attempt 0
with the full retry budget. -/
def runItem {R : Type} (behavior : Nat → AttemptOutcome R) (maxRetries : Nat) :
    Option R :=
  attemptLoop behavior 0 maxRetries

/-- Number of invocations the retry loop performs. -/
def attemptCalls {R : Type} (behavior : Nat → AttemptOutcome R) :
    Nat → Nat → Nat
  | attempt, remaining =>
    match behavior attempt with
    | .success _ => 1
    | .failure => 1
    | .rateLimited =>
      match remaining with
      | 0 => 1
      | n + 1 => 1 + attemptCalls behavior (attempt + 1) n

/-- Number of invocations runItem performs on an item. -/
def runItemCalls {R : Type} (behavior : Nat → AttemptOutcome R) (maxRetries : Nat) :
    Nat :=
  attemptCalls behavior 0 maxRetries

/-- The batch loop of batchProcessWithRateLimit (utils/index.ts lines 53-83),
instrumented: returns the collected successful results together with the
number of batches issued and the number of inter-batch pauses taken (the
source pauses exactly when items remain after the current batch). fuel bounds
the recursion and is instantiated with the item-list length, which suffices
whenever batchSize is positive. -/
def batchRun {T R : Type} (behavior : T → Nat → AttemptOutcome R)
    (maxRetries batchSize : Nat) : Nat → List T → List R × Nat × Nat
  | _, [] => ([], 0, 0)
  | 0, _ :: _ => ([], 0, 0)
  | fuel + 1, item :: more =>
    let l := item :: more
    let batch := l.take batchSize
    let rest := l.drop batchSize
    let batchResults := (batch.map fun it => runItem (behavior it) maxRetries).filterMap id
    let recursed := batchRun behavior maxRetries batchSize fuel rest
    (batchResults ++ recursed.1, recursed.2.1 + 1,
      recursed.2.2 + (if rest.isEmpty then 0 else 1))

/-- batchProcessWithRateLimit (utils/index.ts lines 44-86): the sequence of
successful results over the batched items, with the behaviour of the operation an
explicit input. -/
def batchProcessWithRateLimit {T R : Type} (items : List T) (batchSize : Nat)
    (behavior : T → Nat → AttemptOutcome R) (maxRetries : Nat) : List R :=
  (batchRun behavior maxRetries batchSize items.length items).1

/-- Concrete provider results colliding on the URL x, for the dual-engine
search theorems. -/
def exaResultX : SearchResult :=
  { urls := ["x"], results := [{ url := "x", title := "exa hit" }], source := "exa" }

/-- The Tavily side of the collision scenario. -/
def tavilyResultX : SearchResult :=
  { urls := ["x"], results := [{ url := "x", title := "tavily hit" }], source := "tavily" }

/-- A 50-character extracted text, below the 100-character minimum. -/
def shortText : String := String.mk (List.replicate 50 'a')

/-- A 150-character extracted text, above the minimum. -/
def longText : String := String.mk (List.replicate 150 'b')

/-- A concrete scrape environment in which the fast (axios) fetch succeeds
with a markup whose readable text is 50 characters, while the heavy
(playwright) render returns markup whose readable text is 150 characters. -/
def thinContentEnv : ScrapeEnv :=
  { axiosGet := fun _ => some "static-shell"
    playwrightRender := fun _ => some "rendered-page"
    titleOf := fun _ => "Title"
    readableText := fun html => if html == "rendered-page" then longText else shortText
    dateOf := fun _ _ => none }

/-- The scenario operation for the batch executor: every 4th item (1-based,
so 0-based indices 3 and 7) yields a rate-limit error on its first two
attempts and then succeeds; every other item succeeds immediately. -/
def flakyEveryFourth : Nat → Nat → AttemptOutcome Nat :=
  fun item attempt =>
    if item % 4 == 3 && decide (attempt < 2) then .rateLimited else .success item

/-- An operation that fails item 1 with a non-rate-limit error, used to
instantiate the ordering theorem. -/
def dropSecondBehavior : Nat → Nat → AttemptOutcome Nat :=
  fun item _ => if item == 1 then .failure else .success item

/-- A concrete upstream record used to instantiate threshold theorems. -/
def mdBitcoin : MarketData :=
  { id := "bitcoin", symbol := "btc", name := "Bitcoin",
    market_cap := 2000000, total_volume := 50000 }

/-- A one-asset knowledge base used to instantiate cache theorems. -/
def kbBitcoin : KnowledgeBase :=
  { filtered := [{ id := "bitcoin", symbol := "btc", name := "Bitcoin" }]
    unfiltered := [{ id := "bitcoin", symbol := "btc", name := "Bitcoin" }] }

/-- A deserializer stub that recognises one cached payload. -/
def parseBitcoin : String → Option KnowledgeBase :=
  fun raw => if raw == "cached-payload" then some kbBitcoin else none

section Theorems

/-- Claim C9: on the empty candidate-token list, retrieveCoinIDs returns the
empty array immediately — not a rejection object and not a non-empty accepted
list — and does so uniformly in the knowledge base and in the classifier
outcome, i.e. without consulting the matcher or the classifier. -/
theorem claim_C9_empty_tokens :
    ∀ (knowledgeBase : List Asset) (llm : LLMOutcome),
      retrieveCoinIDs [] knowledgeBase llm = .accepted [] := by
  intro kb llm
  rfl

/-- Claim C6: whenever the cache file is present, its modification-time age
is strictly below the 30-minute TTL and it deserializes, load returns exactly
the deserialized snapshot and the upstream-fetch path does not run. -/
theorem claim_C6_cache_fresh (now mtime : Int) (raw : String)
    (parse : String → Option KnowledgeBase) (kb fresh : KnowledgeBase)
    (hparse : parse raw = some kb) (hage : now - mtime < CACHE_TTL) :
    getCachedKnowledgeBase now (some (mtime, raw)) parse fresh = (kb, false) := by
  simp only [getCachedKnowledgeBase]
  rw [if_neg (lt_asymm hage), hparse]

/-- Witness for claim C6 at a concrete cache state: mtime 0, clock at 10
minutes (600000 ms), payload deserializing to the one-asset knowledge base. -/
theorem claim_C6_cache_fresh_witness :
    parseBitcoin "cached-payload" = some kbBitcoin ∧
    (600000 : Int) - 0 < CACHE_TTL ∧
    getCachedKnowledgeBase 600000 (some (0, "cached-payload")) parseBitcoin
      { filtered := [], unfiltered := [] } = (kbBitcoin, false) :=
  ⟨by decide, by decide,
    claim_C6_cache_fresh 600000 0 "cached-payload" parseBitcoin kbBitcoin
      { filtered := [], unfiltered := [] } (by decide) (by decide)⟩

/-- Claim C5: every record the paged fetch returns passes both thresholds it
was called with, and every asset in the filtered knowledge-base list comes
from an upstream record meeting the fixed market-cap and volume thresholds. -/
theorem claim_C5_filter_thresholds :
    (∀ (minMarketCap minVolume : Int) (perPage : Nat)
        (pages : List (List MarketData)) (r : MarketData),
        r ∈ fetchFilteredMarketData minMarketCap minVolume perPage pages →
        minMarketCap ≤ r.market_cap ∧ minVolume ≤ r.total_volume) ∧
    (∀ (allMarketData : List MarketData) (a : Asset),
        a ∈ (setupCompleteKnowledgeBase allMarketData).filtered →
        ∃ c ∈ allMarketData,
          1000000 ≤ c.market_cap ∧ 10000 ≤ c.total_volume ∧ a = mapCoin c) := by
  constructor
  · intro mc mv perPage pages
    induction pages with
    | nil =>
      intro r hr
      simp [fetchFilteredMarketData] at hr
    | cons page rest ih =>
      intro r hr
      rw [fetchFilteredMarketData] at hr
      split at hr
      · simp at hr
      · split at hr
        · have h := List.mem_filter.mp hr
          simpa using h.2
        · rcases List.mem_append.mp hr with h | h
          · have h := List.mem_filter.mp h
            simpa using h.2
          · exact ih r h
  · intro allMarketData a ha
    simp only [setupCompleteKnowledgeBase] at ha
    rcases List.mem_map.mp ha with ⟨c, hc, rfl⟩
    have hc' := List.mem_filter.mp hc
    have h2 := hc'.2
    simp only [Bool.and_eq_true, decide_eq_true_eq] at h2
    exact ⟨c, hc'.1, h2.1, h2.2, rfl⟩

/-- Witness for claim C5 at a concrete page list and record. -/
theorem claim_C5_filter_thresholds_witness :
    mdBitcoin ∈ fetchFilteredMarketData 1000000 10000 250 [[mdBitcoin]] ∧
    ((1000000 : Int) ≤ mdBitcoin.market_cap ∧ (10000 : Int) ≤ mdBitcoin.total_volume) :=
  ⟨by decide,
    claim_C5_filter_thresholds.1 1000000 10000 250 [[mdBitcoin]] mdBitcoin (by decide)⟩

/-- Claim C3: for a classifier response that parses to a numeric confidence
(and whatever decision word the regex captured), acceptance is exactly the
conjunction of an upper-cased VALID decision with confidence at least 60 —
the comparison is greater-or-equal, so 60 is accepted and 59 rejected under
a VALID decision. -/
theorem claim_C3_confidence_threshold (userTokens : List String)
    (foundMatches : List Asset) (conf : Nat) (dec : String)
    (hne : foundMatches ≠ []) :
    (calculateMatchPercentageWithLLM userTokens foundMatches
        (.parsed (some conf) (some dec))).isValid
      = (jsToUpper dec == "VALID" && decide (conf ≥ 60)) := by
  cases foundMatches with
  | nil => exact absurd rfl hne
  | cons a as =>
    cases h : (jsToUpper dec == "VALID" && decide (conf ≥ 60)) with
    | true => simp [calculateMatchPercentageWithLLM, h]
    | false => simp [calculateMatchPercentageWithLLM, h]

/-- Witness for claim C3: with one candidate and a VALID decision, a parsed
confidence of exactly 60 is accepted and one of 59 is rejected. -/
theorem claim_C3_confidence_threshold_witness :
    ((["btc"] : List String) ≠ [] ∧
      (calculateMatchPercentageWithLLM ["BTC"] [{ id := "bitcoin", symbol := "btc", name := "Bitcoin" }]
          (.parsed (some 60) (some "VALID"))).isValid = true) ∧
    (calculateMatchPercentageWithLLM ["BTC"] [{ id := "bitcoin", symbol := "btc", name := "Bitcoin" }]
        (.parsed (some 59) (some "VALID"))).isValid = false := by
  refine ⟨⟨by decide, ?_⟩, ?_⟩
  · rw [claim_C3_confidence_threshold ["BTC"]
      [{ id := "bitcoin", symbol := "btc", name := "Bitcoin" }] 60 "VALID" (by decide)]
    decide
  · rw [claim_C3_confidence_threshold ["BTC"]
      [{ id := "bitcoin", symbol := "btc", name := "Bitcoin" }] 59 "VALID" (by decide)]
    decide

/-- Claim C4: when the classifier call throws, the fallback accepts exactly
when some user token equals (after lower-casing) the symbol of some matched record
or name, and the fallback result never carries suggestions; a match list
reachable only through partial matches (no such equality) is rejected. -/
theorem claim_C4_fallback (userTokens : List String) (foundMatches : List Asset)
    (hne : foundMatches ≠ []) :
    ((calculateMatchPercentageWithLLM userTokens foundMatches .failed).isValid = true ↔
      ∃ m ∈ foundMatches, ∃ t ∈ userTokens,
        jsToLower t = jsToLower m.symbol ∨ jsToLower t = jsToLower m.name) ∧
    (calculateMatchPercentageWithLLM userTokens foundMatches .failed).suggestions = none := by
  cases foundMatches with
  | nil => exact absurd rfl hne
  | cons a as =>
    constructor
    · simp only [calculateMatchPercentageWithLLM, List.isEmpty_cons, Bool.false_eq_true,
        if_false, List.any_eq_true, Bool.or_eq_true, beq_iff_eq]
    · simp only [calculateMatchPercentageWithLLM, List.isEmpty_cons, Bool.false_eq_true,
        if_false]

/-- Witness for claim C4: a single exact-symbol candidate is accepted by the
fallback with no suggestions. -/
theorem claim_C4_fallback_witness :
    (([{ id := "bitcoin", symbol := "btc", name := "Bitcoin" }] : List Asset) ≠ []) ∧
    ((calculateMatchPercentageWithLLM ["BTC"]
        [{ id := "bitcoin", symbol := "btc", name := "Bitcoin" }] .failed).isValid = true ↔
      ∃ m ∈ ([{ id := "bitcoin", symbol := "btc", name := "Bitcoin" }] : List Asset),
        ∃ t ∈ (["BTC"] : List String),
          jsToLower t = jsToLower m.symbol ∨ jsToLower t = jsToLower m.name) ∧
    (calculateMatchPercentageWithLLM ["BTC"]
        [{ id := "bitcoin", symbol := "btc", name := "Bitcoin" }] .failed).suggestions = none :=
  ⟨by decide,
    (claim_C4_fallback ["BTC"] [{ id := "bitcoin", symbol := "btc", name := "Bitcoin" }]
      (by decide)).1,
    (claim_C4_fallback ["BTC"] [{ id := "bitcoin", symbol := "btc", name := "Bitcoin" }]
      (by decide)).2⟩

/-- An asset returned by the inner scan never carries an already-bound id. -/
theorem findFirstMatch_id_not_found (lowerToken : String) (foundIds : List String)
    (assets : List Asset) (a : Asset)
    (h : findFirstMatch lowerToken foundIds assets = some a) :
    a.id ∉ foundIds := by
  induction assets with
  | nil => simp [findFirstMatch] at h
  | cons asset rest ih =>
    rw [findFirstMatch] at h
    split at h
    · rename_i hcond
      cases h
      have := (Bool.and_eq_true _ _).mp hcond |>.2
      rw [Bool.not_eq_true', ← Bool.not_eq_true] at this
      intro hmem
      exact this (List.elem_iff.mpr hmem)
    · split at h
      · rename_i hcond
        cases h
        have := (Bool.and_eq_true _ _).mp hcond |>.2
        rw [Bool.not_eq_true', ← Bool.not_eq_true] at this
        intro hmem
        exact this (List.elem_iff.mpr hmem)
      · split at h
        · rename_i hcond
          cases h
          have := (Bool.and_eq_true _ _).mp hcond |>.2
          rw [Bool.not_eq_true', ← Bool.not_eq_true] at this
          intro hmem
          exact this (List.elem_iff.mpr hmem)
        · exact ih h

/-- Invariant of the matcher loop: no returned asset carries an id from the
incoming foundIds accumulator, and the returned ids are pairwise distinct. -/
theorem findTokenMatches_invariant (tokens : List String) (assets : List Asset)
    (foundIds : List String) :
    (∀ a ∈ findTokenMatches tokens assets foundIds, a.id ∉ foundIds) ∧
    ((findTokenMatches tokens assets foundIds).map Asset.id).Nodup := by
  induction tokens generalizing foundIds with
  | nil => simp [findTokenMatches]
  | cons token rest ih =>
    rw [findTokenMatches]
    split
    · exact ih foundIds
    · cases hmatch : findFirstMatch (jsToLower token) foundIds assets with
      | none => exact ih foundIds
      | some asset =>
        have hnotfound := findFirstMatch_id_not_found _ _ _ _ hmatch
        obtain ⟨ihmem, ihnodup⟩ := ih (asset.id :: foundIds)
        constructor
        · intro a ha
          rcases List.mem_cons.mp ha with rfl | ha
          · exact hnotfound
          · exact fun hmem => ihmem a ha (List.mem_cons_of_mem _ hmem)
        · rw [List.map_cons, List.nodup_cons]
          refine ⟨?_, ihnodup⟩
          intro hmem
          rcases List.mem_map.mp hmem with ⟨b, hb, hid⟩
          exact ihmem b hb (hid ▸ List.mem_cons_self _ _)

/-- Claim C8: within one findTokenMatches call, every asset identifier
appears at most once in the returned match sequence — no record is bound to
more than one token. -/
theorem claim_C8_ids_bound_once (tokens : List String) (assets : List Asset) :
    ((findTokenMatches tokens assets []).map Asset.id).Nodup :=
  (findTokenMatches_invariant tokens assets []).2

/-- A Boolean contains returning false is exactly non-membership. -/
theorem contains_eq_false_iff (l : List String) (x : String) :
    l.contains x = false ↔ x ∉ l := by
  rw [← Bool.not_eq_true, not_iff_not]
  exact List.elem_iff

/-- Membership in the Set-style deduplication: kept exactly when present in
the input and not already seen. -/
theorem mem_dedupSeen (x : String) (l : List String) :
    ∀ seen, x ∈ dedupSeen seen l ↔ x ∈ l ∧ x ∉ seen := by
  induction l with
  | nil =>
    intro seen
    simp [dedupSeen]
  | cons y ys ih =>
    intro seen
    rw [dedupSeen]
    split
    · rename_i hcont
      rw [ih seen]
      constructor
      · rintro ⟨hmem, hns⟩
        exact ⟨List.mem_cons_of_mem _ hmem, hns⟩
      · rintro ⟨hmem, hns⟩
        rcases List.mem_cons.mp hmem with rfl | hmem
        · exact absurd (List.elem_iff.mp hcont) hns
        · exact ⟨hmem, hns⟩
    · rename_i hcont
      constructor
      · intro hmem
        rcases List.mem_cons.mp hmem with rfl | hmem
        · exact ⟨List.mem_cons_self _ _, fun hy => hcont (List.elem_iff.mpr hy)⟩
        · obtain ⟨h1, h2⟩ := (ih (y :: seen)).mp hmem
          exact ⟨List.mem_cons_of_mem _ h1,
            fun hx => h2 (List.mem_cons_of_mem _ hx)⟩
      · rintro ⟨hmem, hns⟩
        by_cases hxy : x = y
        · subst hxy
          exact List.mem_cons_self _ _
        · rcases List.mem_cons.mp hmem with rfl | hmem
          · exact absurd rfl hxy
          · refine List.mem_cons_of_mem _ ((ih (y :: seen)).mpr ⟨hmem, ?_⟩)
            intro hx
            rcases List.mem_cons.mp hx with rfl | hx
            · exact hxy rfl
            · exact hns hx

/-- The Set-style deduplication output has no duplicates. -/
theorem nodup_dedupSeen (l : List String) : ∀ seen, (dedupSeen seen l).Nodup := by
  induction l with
  | nil =>
    intro seen
    simp [dedupSeen]
  | cons y ys ih =>
    intro seen
    rw [dedupSeen]
    split
    · exact ih seen
    · rw [List.nodup_cons]
      refine ⟨?_, ih (y :: seen)⟩
      intro hmem
      exact ((mem_dedupSeen y ys (y :: seen)).mp hmem).2 (List.mem_cons_self _ _)

/-- Membership in the accumulated seen-set after inserting a list. -/
theorem mem_dedupAccum (x : String) (l : List String) :
    ∀ seen, x ∈ dedupAccum seen l ↔ x ∈ seen ∨ x ∈ l := by
  induction l with
  | nil =>
    intro seen
    simp [dedupAccum]
  | cons y ys ih =>
    intro seen
    rw [dedupAccum]
    split
    · rename_i hcont
      rw [ih seen]
      simp only [List.mem_cons]
      constructor
      · rintro (h | h)
        · exact Or.inl h
        · exact Or.inr (Or.inr h)
      · rintro (h | rfl | h)
        · exact Or.inl h
        · exact Or.inl (List.elem_iff.mp hcont)
        · exact Or.inr h
    · rw [ih (y :: seen)]
      simp only [List.mem_cons]
      tauto

/-- Deduplicating a concatenation processes the left part first and then the
right part against the seen-set accumulated from the left part. -/
theorem dedupSeen_append (a b : List String) :
    ∀ seen, dedupSeen seen (a ++ b)
      = dedupSeen seen a ++ dedupSeen (dedupAccum seen a) b := by
  induction a with
  | nil =>
    intro seen
    simp [dedupSeen, dedupAccum]
  | cons y ys ih =>
    intro seen
    cases hb : seen.contains y with
    | true =>
      have hmem : y ∈ seen := List.elem_iff.mp hb
      simp [dedupSeen, dedupAccum, hmem, ih seen]
    | false =>
      have hmem : y ∉ seen := (contains_eq_false_iff seen y).mp hb
      simp [dedupSeen, dedupAccum, hmem, ih (y :: seen)]

/-- Claim C2 counterexample: when Exa and Tavily both return a hit for the
URL x, the hit array of the merged result keeps both entries (count 2, not
exactly one), and no per-hit provider tag exists — only the deduplicated
URL-string list collapses x to a single occurrence. This refutes the claim
that the merged result contains exactly one entry for x attributed to
provider A. -/
theorem claim_C2_counterexample :
    ((searchDualEngine (.fulfilled exaResultX) (.fulfilled tavilyResultX)).results.countP
        (fun h => h.url == "x")) = 2 ∧
    (searchDualEngine (.fulfilled exaResultX) (.fulfilled tavilyResultX)).urls = ["x"] ∧
    (searchDualEngine (.fulfilled exaResultX) (.fulfilled tavilyResultX)).results
      = [{ url := "x", title := "exa hit" }, { url := "x", title := "tavily hit" }] := by
  decide

/-- Claim C2 amended: on a URL collision between the two providers, the
deduplicated URL list of the merged result contains exactly one occurrence of the
URL, and that occurrence lies in the prefix derived from provider A (Exa),
whose urls are concatenated first; the hit-entry array, by contrast, is not
deduplicated (see the counterexample). -/
theorem claim_C2_dedup_first_wins (ex tv : SearchResult) (x : String)
    (hex : x ∈ ex.urls) (_htv : x ∈ tv.urls) :
    (searchDualEngine (.fulfilled ex) (.fulfilled tv)).urls.count x = 1 ∧
    (searchDualEngine (.fulfilled ex) (.fulfilled tv)).urls
      = dedupFirst ex.urls ++ dedupSeen (dedupAccum [] ex.urls) tv.urls ∧
    x ∈ dedupFirst ex.urls ∧
    x ∉ dedupSeen (dedupAccum [] ex.urls) tv.urls := by
  have hurls : (searchDualEngine (.fulfilled ex) (.fulfilled tv)).urls
      = dedupFirst ex.urls ++ dedupSeen (dedupAccum [] ex.urls) tv.urls := by
    simp only [searchDualEngine, dedupFirst]
    exact dedupSeen_append ex.urls tv.urls []
  have hmem1 : x ∈ dedupFirst ex.urls :=
    (mem_dedupSeen x ex.urls []).mpr ⟨hex, by simp⟩
  have hmem2 : x ∉ dedupSeen (dedupAccum [] ex.urls) tv.urls := by
    intro h
    exact ((mem_dedupSeen x tv.urls _).mp h).2
      ((mem_dedupAccum x ex.urls []).mpr (Or.inr hex))
  have hnodup : (dedupFirst ex.urls).Nodup := nodup_dedupSeen ex.urls []
  refine ⟨?_, hurls, hmem1, hmem2⟩
  rw [hurls, List.count_append, List.count_eq_one_of_mem hnodup hmem1,
    List.count_eq_zero.mpr hmem2]

/-- Witness for the amended claim C2 at the concrete collision scenario. -/
theorem claim_C2_dedup_first_wins_witness :
    "x" ∈ exaResultX.urls ∧ "x" ∈ tavilyResultX.urls ∧
    ((searchDualEngine (.fulfilled exaResultX) (.fulfilled tavilyResultX)).urls.count "x" = 1 ∧
      (searchDualEngine (.fulfilled exaResultX) (.fulfilled tavilyResultX)).urls
        = dedupFirst exaResultX.urls
            ++ dedupSeen (dedupAccum [] exaResultX.urls) tavilyResultX.urls ∧
      "x" ∈ dedupFirst exaResultX.urls ∧
      "x" ∉ dedupSeen (dedupAccum [] exaResultX.urls) tavilyResultX.urls) :=
  ⟨by decide, by decide,
    claim_C2_dedup_first_wins exaResultX tavilyResultX "x" (by decide) (by decide)⟩

/-- When the extracted text is below the 100-character minimum, extraction
yields no document. -/
theorem extractContent_short (env : ScrapeEnv) (url html : String)
    (hshort : (env.readableText html).length < 100) :
    extractContent env url html = none := by
  unfold extractContent
  rw [if_pos hshort]

/-- Claim C1 counterexample: at thinContentEnv, the fast fetch succeeds and
the extracted readable text has only 50 characters, yet scrapeUrl invokes the
heavy (playwright) method (second component true) and returns a document
from it (first component isSome) — the URL is neither treated as failed nor
excluded, and the heavy retry does happen. -/
theorem claim_C1_counterexample :
    (thinContentEnv.axiosGet "https://example.com").isSome = true ∧
    (thinContentEnv.readableText "static-shell").length = 50 ∧
    (scrapeUrl thinContentEnv "https://example.com").2 = true ∧
    (scrapeUrl thinContentEnv "https://example.com").1.isSome = true := by
  refine ⟨rfl, by decide, ?_, ?_⟩ <;> decide

/-- Claim C1 amended: when the fast (axios) fetch succeeds but the extracted
text is shorter than 100 characters, the acquirer does not stop — it falls
back to the heavy (playwright) method, and the final outcome for the URL is
whatever that heavy attempt produces (the URL is excluded only if the heavy
attempt also throws or extracts fewer than 100 characters). -/
theorem claim_C1_short_text_falls_back (env : ScrapeEnv) (url html : String)
    (haxios : env.axiosGet url = some html)
    (hshort : (env.readableText html).length < 100) :
    (scrapeUrl env url).2 = true ∧
    (scrapeUrl env url).1 = (tryPlaywrightMethod env url).join := by
  have haxmethod : tryAxiosMethod env url = some none := by
    simp only [tryAxiosMethod, haxios, extractContent_short env url html hshort]
  unfold scrapeUrl
  rw [haxmethod]
  cases hpw : tryPlaywrightMethod env url with
  | none => exact ⟨rfl, rfl⟩
  | some r => exact ⟨rfl, rfl⟩

/-- Witness for the amended claim C1 at the concrete thin-content
environment. -/
theorem claim_C1_short_text_falls_back_witness :
    thinContentEnv.axiosGet "https://example.com" = some "static-shell" ∧
    (thinContentEnv.readableText "static-shell").length < 100 ∧
    ((scrapeUrl thinContentEnv "https://example.com").2 = true ∧
      (scrapeUrl thinContentEnv "https://example.com").1
        = (tryPlaywrightMethod thinContentEnv "https://example.com").join) :=
  ⟨rfl, by decide,
    claim_C1_short_text_falls_back thinContentEnv "https://example.com" "static-shell"
      rfl (by decide)⟩

/-- The retry loop performs at most one more invocation than it has retries
remaining. -/
theorem attemptCalls_le {R : Type} (b : Nat → AttemptOutcome R) :
    ∀ (remaining attempt : Nat), attemptCalls b attempt remaining ≤ remaining + 1 := by
  intro remaining
  induction remaining with
  | zero =>
    intro attempt
    rw [attemptCalls]
    cases hb : b attempt <;> simp [hb]
  | succ n ih =>
    intro attempt
    rw [attemptCalls]
    cases hb : b attempt with
    | success v => simp [hb]
    | failure => simp [hb]
    | rateLimited =>
      simp only [hb]
      have := ih (attempt + 1)
      omega

/-- The results collected by the batch loop are the per-item outcomes in input
order with the failures dropped, for any sufficient fuel and any positive
batch size. -/
theorem batchRun_results {T R : Type} (behavior : T → Nat → AttemptOutcome R)
    (maxRetries batchSize : Nat) (hbs : 0 < batchSize) :
    ∀ (fuel : Nat) (l : List T), l.length ≤ fuel →
      (batchRun behavior maxRetries batchSize fuel l).1
        = l.filterMap fun it => runItem (behavior it) maxRetries := by
  intro fuel
  induction fuel with
  | zero =>
    intro l hl
    have : l = [] := List.eq_nil_of_length_eq_zero (Nat.le_zero.mp hl)
    subst this
    rfl
  | succ n ih =>
    intro l hl
    cases l with
    | nil => rfl
    | cons x xs =>
      have hrest : ((x :: xs).drop batchSize).length ≤ n := by
        rw [List.length_drop]
        have hlen : (x :: xs).length ≤ n + 1 := hl
        omega
      simp only [batchRun]
      rw [ih _ hrest, List.filterMap_map]
      conv_rhs => rw [← List.take_append_drop batchSize (x :: xs), List.filterMap_append]
      rfl

/-- Claim C10: the output of the batch executor is exactly the subsequence of
successful per-item results in the order of their corresponding input items
(failed items dropped) — batch collection preserves input order. -/
theorem claim_C10_output_in_input_order {T R : Type} (items : List T)
    (batchSize : Nat) (behavior : T → Nat → AttemptOutcome R) (maxRetries : Nat)
    (hbs : 0 < batchSize) :
    batchProcessWithRateLimit items batchSize behavior maxRetries
      = items.filterMap fun it => runItem (behavior it) maxRetries :=
  batchRun_results behavior maxRetries batchSize hbs items.length items le_rfl

/-- Witness for claim C10: four items in batches of two, item 1 failing,
yield the successful results in input order. -/
theorem claim_C10_output_in_input_order_witness :
    0 < 2 ∧
    batchProcessWithRateLimit [0, 1, 2, 3] 2 dropSecondBehavior 4
      = ([0, 1, 2, 3].filterMap fun it => runItem (dropSecondBehavior it) 4) :=
  ⟨by decide, claim_C10_output_in_input_order [0, 1, 2, 3] 2 dropSecondBehavior 4 (by decide)⟩

/-- Claim C7: with the 10 items 0..9, batch size 3, maxRetries 4, and every
4th item rate-limited twice before succeeding, the executor returns exactly
the 10 successful results (in order), issues 4 batches, and takes 3
inter-batch pauses — one between each pair of consecutive batches; moreover,
for any operation behaviour, the retry loop never invokes the operation more
than maxRetries + 1 times, i.e. never retries more than maxRetries times. -/
theorem claim_C7_batch_scenario :
    batchRun flakyEveryFourth 4 3 (List.range 10).length (List.range 10)
      = (List.range 10, 4, 3) ∧
    (∀ (maxRetries : Nat) (b : Nat → AttemptOutcome Nat),
      runItemCalls b maxRetries ≤ maxRetries + 1) :=
  ⟨by decide, fun maxRetries b => attemptCalls_le b maxRetries 0⟩

end Theorems

end Pipeline
